import Mathlib

/-!
Verification of the waveform renderer core (renderer.ts, draggable.ts):
drag-to-seek progress computation, drag gesture lifecycle, render geometry,
multi-canvas tiling, cursor cache, edge auto-scroll and scroll clamping.
JS numbers are modelled as rationals (ℚ); `Math.floor`/`Math.ceil`/`Math.round`
become `Int.floor`/`Int.ceil`/floor of x + 1/2.
-/

namespace Wavesurfer

/-- renderer.ts `clamp(value, min, max)`: `Math.min(Math.max(value, min), max)`. -/
def clamp (value lo hi : ℚ) : ℚ := min (max value lo) hi

/-- JS numeric `a || b` for non-NaN numbers: `b` when `a` is `0`, else `a`. -/
def jsOr (a b : ℚ) : ℚ := if a = 0 then b else a

/-- JS `Math.round x` = floor (x + 1/2) for finite x. -/
def jsRound (x : ℚ) : ℤ := ⌊x + 1 / 2⌋

/-- renderer.ts initDrag, drag callback: `Math.max(0, Math.min(1, x / wrapperWidth))`
where `x` is the pointer position relative to the wrapper and `wrapperWidth` the
cached wrapper rect width. -/
def dragCallbackProgress (x wrapperWidth : ℚ) : ℚ :=
  max 0 (min 1 (x / wrapperWidth))

/-- renderer.ts initDrag, on-start-drag callback: `this.clamp(x / wrapperWidth, 0, 1)`. -/
def dragStartProgress (x wrapperWidth : ℚ) : ℚ :=
  clamp (x / wrapperWidth) 0 1

/-- renderer.ts initDrag, on-end-drag callback: `Math.max(0, Math.min(1, x / wrapperWidth))`. -/
def dragEndProgress (x wrapperWidth : ℚ) : ℚ :=
  max 0 (min 1 (x / wrapperWidth))

/-- renderer.ts startContinuousScroll, per-frame progress recomputation:
`this.clamp((this.lastDragMouseX - wrapperRect.left) / wrapperWidth, 0, 1)`. -/
def autoScrollTickProgress (lastDragMouseX wrapperLeft wrapperWidth : ℚ) : ℚ :=
  clamp ((lastDragMouseX - wrapperLeft) / wrapperWidth) 0 1

theorem max_min_eq_clamp (v : ℚ) : max 0 (min 1 v) = clamp v 0 1 := by
  unfold clamp
  rcases le_total v 0 with h | h <;> rcases le_total v 1 with h2 | h2 <;>
    rw [min_comm, max_comm] <;>
    simp [min_def, max_def] <;> split_ifs <;> first | rfl | linarith

theorem clamp_unit_nonneg (v : ℚ) : 0 ≤ clamp v 0 1 :=
  le_min (le_max_right v 0) (by norm_num)

theorem clamp_unit_le_one (v : ℚ) : clamp v 0 1 ≤ 1 :=
  min_le_right _ _

/-- C1: every progress value the renderer emits or applies during a drag —
the drag, dragstart and dragend callbacks and the auto-scroll tick — equals
clamp(pointerX / wrapperWidth, 0, 1) and lies in [0, 1], for every pointer
position and positive wrapper width. -/
theorem dragProgress_clamped (px mx left w : ℚ) (hw : 0 < w) :
    dragCallbackProgress px w = clamp (px / w) 0 1 ∧
    dragStartProgress px w = clamp (px / w) 0 1 ∧
    dragEndProgress px w = clamp (px / w) 0 1 ∧
    autoScrollTickProgress mx left w = clamp ((mx - left) / w) 0 1 ∧
    (0 ≤ dragCallbackProgress px w ∧ dragCallbackProgress px w ≤ 1) ∧
    (0 ≤ dragStartProgress px w ∧ dragStartProgress px w ≤ 1) ∧
    (0 ≤ dragEndProgress px w ∧ dragEndProgress px w ≤ 1) ∧
    (0 ≤ autoScrollTickProgress mx left w ∧ autoScrollTickProgress mx left w ≤ 1) := by
  refine ⟨max_min_eq_clamp _, rfl, max_min_eq_clamp _, rfl, ⟨?_, ?_⟩, ⟨?_, ?_⟩, ⟨?_, ?_⟩, ⟨?_, ?_⟩⟩ <;>
    simp only [dragCallbackProgress, dragStartProgress, dragEndProgress,
      autoScrollTickProgress, max_min_eq_clamp]
  all_goals first
    | exact clamp_unit_nonneg _
    | exact clamp_unit_le_one _

/-- C1 witness: the theorem applied at pointer x = 30, wrapper width 40. -/
theorem dragProgress_clamped_witness :
    dragCallbackProgress 30 40 = clamp (30 / 40) 0 1 ∧ 0 ≤ dragCallbackProgress 30 40 ∧
      dragCallbackProgress 30 40 ≤ 1 :=
  have h := dragProgress_clamped 30 50 10 40 (by norm_num)
  ⟨h.1, h.2.2.2.2.1.1, h.2.2.2.2.1.2⟩

/-- The width-related outcome of renderer.ts render(audioData). -/
structure RenderGeometry where
  scrollWidth : ℤ
  isScrollable : Bool
  useParentWidth : Bool
  width : ℚ
  wrapperWidthFull : Bool
deriving Repr, DecidableEq

/-- renderer.ts render(audioData), width computation:
scrollWidth = Math.ceil(duration * (minPxPerSec || 0)),
isScrollable = scrollWidth > parentWidth,
useParentWidth = fillParent && !isScrollable,
width = (useParentWidth ? parentWidth : scrollWidth) * pixelRatio, and
wrapper.style.width is '100%' when useParentWidth, else scrollWidth px. -/
def computeRenderGeometry (duration : ℚ) (minPxPerSec : Option ℚ) (parentWidth : ℚ)
    (fillParent : Bool) (pixelRatio : ℚ) : RenderGeometry :=
  let scrollWidth : ℤ := ⌈duration * minPxPerSec.getD 0⌉
  let isScrollable : Bool := decide (parentWidth < (scrollWidth : ℚ))
  let useParentWidth : Bool := fillParent && !isScrollable
  { scrollWidth := scrollWidth
    isScrollable := isScrollable
    useParentWidth := useParentWidth
    width := (if useParentWidth then parentWidth else (scrollWidth : ℚ)) * pixelRatio
    wrapperWidthFull := useParentWidth }

/-- C3: after render, isScrollable equals (ceil(duration * minPxPerSec) > client
width); a 10-second buffer at 100 px/sec in a 500px viewport gives isScrollable
and content width 1000; the wrapper width is 100% exactly when the content fits
and fillParent is set. -/
theorem render_isScrollable_spec (d : ℚ) (m : Option ℚ) (pw : ℚ) (fp : Bool) (pr : ℚ) :
    ((computeRenderGeometry d m pw fp pr).isScrollable =
      decide (pw < ((⌈d * m.getD 0⌉ : ℤ) : ℚ))) ∧
    (computeRenderGeometry 10 (some 100) 500 fp pr).isScrollable = true ∧
    (computeRenderGeometry 10 (some 100) 500 fp pr).scrollWidth = 1000 ∧
    ((computeRenderGeometry d m pw fp pr).wrapperWidthFull = true ↔
      fp = true ∧ (computeRenderGeometry d m pw fp pr).isScrollable = false) := by
  refine ⟨rfl, ?_, ?_, ?_⟩
  · simp only [computeRenderGeometry, Option.getD]
    norm_num
  · simp only [computeRenderGeometry, Option.getD]
    norm_num
  · simp only [computeRenderGeometry, Bool.and_eq_true, Bool.not_eq_true']

/-- Cursor DOM state plus the redundant-write cache (renderer.ts fields
lastCursorProgress, cursor.style.left, cursor.style.transform). -/
structure CursorState where
  lastCursorProgress : ℚ
  cursorLeftPct : ℚ
  cursorTranslate : ℚ
deriving Repr, DecidableEq

/-- renderer.ts updateCursorPosition(progress): short-circuits when progress
equals the cached lastCursorProgress, else writes the cursor styles once.
Returns the new state and the number of visual writes performed (0 or 1).
The isNaN guard has no counterpart for ℚ inputs. -/
def updateCursorPosition (cursorWidth : ℚ) (s : CursorState) (progress : ℚ) :
    CursorState × ℕ :=
  if progress = s.lastCursorProgress then (s, 0)
  else
    let percents := progress * 100
    ({ lastCursorProgress := progress
       cursorLeftPct := percents
       cursorTranslate := if jsRound percents = 100 then cursorWidth else 0 }, 1)

/-- C6: for progress p in [0, 1], calling updateCursorPosition twice with the
same p performs the visual write at most once in total: the second call is
short-circuited by the cached progress, changes nothing and writes nothing,
while the first call writes exactly once whenever the cache differs from p. -/
theorem updateCursorPosition_idempotent (cw p : ℚ) (s : CursorState)
    (h0 : 0 ≤ p) (h1 : p ≤ 1) :
    (updateCursorPosition cw (updateCursorPosition cw s p).1 p =
      ((updateCursorPosition cw s p).1, 0)) ∧
    (updateCursorPosition cw s p).2 +
        (updateCursorPosition cw (updateCursorPosition cw s p).1 p).2 ≤ 1 ∧
    (s.lastCursorProgress ≠ p → (updateCursorPosition cw s p).2 = 1) := by
  by_cases h : p = s.lastCursorProgress
  · refine ⟨?_, ?_, fun hne => absurd h.symm hne⟩ <;> simp [updateCursorPosition, h]
  · refine ⟨?_, ?_, fun _ => ?_⟩ <;> simp [updateCursorPosition, h]

/-- C6 witness: the theorem applied at p = 1/2 from the initial cursor state
(cache sentinel -1). -/
theorem updateCursorPosition_idempotent_witness :
    0 ≤ (1 : ℚ) / 2 ∧ (1 : ℚ) / 2 ≤ 1 ∧
      (updateCursorPosition 2 (updateCursorPosition 2 ⟨-1, 0, 0⟩ (1 / 2)).1 (1 / 2) =
        ((updateCursorPosition 2 ⟨-1, 0, 0⟩ (1 / 2)).1, 0)) ∧
      (updateCursorPosition 2 ⟨-1, 0, 0⟩ (1 / 2)).2 = 1 :=
  have h := updateCursorPosition_idempotent 2 (1 / 2) ⟨-1, 0, 0⟩ (by norm_num) (by norm_num)
  ⟨by norm_num, by norm_num, h.1, h.2.2 (by norm_num)⟩

/-- renderer.ts reRender(): the scroll-offset adjustment — the right-edge delta
doubled, floored when negative else ceiled, then halved ("round to the half px
furthest from 0"). -/
def roundAwayHalf (delta : ℚ) : ℚ :=
  let d2 := delta * 2
  (if d2 < 0 then (⌊d2⌋ : ℚ) else (⌈d2⌉ : ℚ)) / 2

/-- renderer.ts reRender(): the scrollLeft value after re-rendering, where
before/after are the progress overlay's right edge before/after the render.
Adjusted only when the new render is scrollable and the scrollWidth changed. -/
def reRenderScrollLeft (isScrollable : Bool) (oldScrollWidth newScrollWidth : ℚ)
    (before after scrollLeft : ℚ) : ℚ :=
  if isScrollable ∧ oldScrollWidth ≠ newScrollWidth then
    scrollLeft + roundAwayHalf (after - before)
  else scrollLeft

/-- C9: when reRender sees a scrollable render whose scroll width changed, the
raw scroll offset moves by exactly the right-edge pixel delta rounded away from
zero at half-pixel precision (a half-integer, at least as far from zero as the
true delta, within half a pixel of it); otherwise the offset is unchanged. -/
theorem reRender_scroll_adjustment (sc : Bool) (ow nw before after sl : ℚ) :
    (sc = true → ow ≠ nw →
      reRenderScrollLeft sc ow nw before after sl =
        sl + (if (after - before) * 2 < 0 then ((⌊(after - before) * 2⌋ : ℤ) : ℚ)
              else ((⌈(after - before) * 2⌉ : ℤ) : ℚ)) / 2) ∧
    (sc = false ∨ ow = nw → reRenderScrollLeft sc ow nw before after sl = sl) ∧
    (∃ k : ℤ, roundAwayHalf (after - before) = (k : ℚ) / 2) ∧
    (0 ≤ after - before → after - before ≤ roundAwayHalf (after - before)) ∧
    (after - before ≤ 0 → roundAwayHalf (after - before) ≤ after - before) ∧
    |roundAwayHalf (after - before) - (after - before)| < 1 / 2 := by
  set d := after - before with hd
  constructor
  · intro hsc hne
    subst hsc
    simp [reRenderScrollLeft, roundAwayHalf, hne]
  constructor
  · rintro (hsc | he)
    · subst hsc
      simp [reRenderScrollLeft]
    · simp [reRenderScrollLeft, he]
  have hceil := Int.le_ceil (d * 2)
  have hceil2 := Int.ceil_lt_add_one (d * 2)
  have hfloor := Int.floor_le (d * 2)
  have hfloor2 := Int.sub_one_lt_floor (d * 2)
  by_cases hneg : d * 2 < 0
  · refine ⟨⟨⌊d * 2⌋, by simp [roundAwayHalf, hneg]⟩, fun h0 => absurd hneg (by linarith), ?_, ?_⟩
    · intro _
      simp only [roundAwayHalf, if_pos hneg]
      linarith
    · simp only [roundAwayHalf, if_pos hneg]
      rw [abs_lt]
      constructor <;> linarith
  · refine ⟨⟨⌈d * 2⌉, by simp [roundAwayHalf, hneg]⟩, ?_, ?_, ?_⟩
    · intro _
      simp only [roundAwayHalf, if_neg hneg]
      linarith
    · intro h0
      have : d = 0 := by linarith [not_lt.mp hneg]
      simp [roundAwayHalf, hneg, this]
    · simp only [roundAwayHalf, if_neg hneg]
      rw [abs_lt]
      constructor <;> linarith

/-- C9 witness: the theorem applied with the scroll width changing from 400 to
600 and a right-edge delta of 3/4 (rounded away from zero to 1). -/
theorem reRender_scroll_adjustment_witness :
    (400 : ℚ) ≠ 600 ∧
      reRenderScrollLeft true 400 600 10 (10 + 3 / 4) 5 =
        5 + (if ((10 + 3 / 4 : ℚ) - 10) * 2 < 0 then ((⌊((10 + 3 / 4 : ℚ) - 10) * 2⌋ : ℤ) : ℚ)
             else ((⌈((10 + 3 / 4 : ℚ) - 10) * 2⌉ : ℤ) : ℚ)) / 2 :=
  ⟨by norm_num,
    (reRender_scroll_adjustment true 400 600 10 (10 + 3 / 4) 5).1 rfl (by norm_num)⟩

/-- The two continuous-scroll directions of renderer.ts. -/
inductive ScrollDir
  | left
  | right
deriving Repr, DecidableEq

/-- renderer.ts startContinuousScroll, one frame of the scroll() loop: the
offset requested from Lenis (or written to scrollLeft as fallback) — the
current offset plus the signed speed, clamped to [0, scrollWidth - clientWidth]. -/
def autoScrollTickTarget (dir : ScrollDir) (currentSpeed currentScrollLeft scrollWidth clientWidth : ℚ) : ℚ :=
  let scrollAmount := match dir with
    | ScrollDir.right => currentSpeed
    | ScrollDir.left => -currentSpeed
  let newScrollLeft := currentScrollLeft + scrollAmount
  let maxScrollLeft := scrollWidth - clientWidth
  clamp newScrollLeft 0 maxScrollLeft

/-- C10: every continuous auto-scroll frame requests exactly
clamp(currentOffset + signedSpeed, 0, scrollWidth - clientWidth), so for any
direction and speed the requested offset is never negative and never exceeds
the maximum scrollable offset. -/
theorem autoScrollTickTarget_clamped (dir : ScrollDir) (sp cur sw cw : ℚ)
    (h : cw ≤ sw) :
    autoScrollTickTarget dir sp cur sw cw =
      clamp (cur + (match dir with | ScrollDir.right => sp | ScrollDir.left => -sp)) 0 (sw - cw) ∧
    0 ≤ autoScrollTickTarget dir sp cur sw cw ∧
    autoScrollTickTarget dir sp cur sw cw ≤ sw - cw := by
  refine ⟨rfl, ?_, min_le_right _ _⟩
  exact le_min (le_max_right _ 0) (by linarith)

/-- C10 witness: the theorem applied scrolling left by 5 from offset 3 in a
100-wide content with a 50-wide viewport (the request clamps to 0). -/
theorem autoScrollTickTarget_clamped_witness :
    (50 : ℚ) ≤ 100 ∧ autoScrollTickTarget ScrollDir.left 5 3 100 50 = 0 ∧
      0 ≤ autoScrollTickTarget ScrollDir.left 5 3 100 50 ∧
      autoScrollTickTarget ScrollDir.left 5 3 100 50 ≤ 100 - 50 :=
  have h := autoScrollTickTarget_clamped ScrollDir.left 5 3 100 50 (by norm_num)
  ⟨by norm_num, by rw [h.1]; norm_num [clamp], h.2.1, h.2.2⟩

/-- What renderer.ts updateContinuousScroll(mouseX) does to the continuous
scroll: nothing when not dragging, stop in the central zone, or start/continue
scrolling toward an edge with a proximity-scaled maximum speed. -/
inductive ScrollDecision
  | noChange
  | stop
  | scroll (dir : ScrollDir) (speed : ℚ)
deriving Repr, DecidableEq

/-- renderer.ts updateContinuousScroll(mouseX): edge zones are 20% of the
scroll container width; speed is max(2, edgeProximity * 12). -/
def updateContinuousScroll (isDragging : Bool) (mouseX containerLeft containerWidth : ℚ) : ScrollDecision :=
  if !isDragging then ScrollDecision.noChange
  else
    let relativeX := mouseX - containerLeft
    let edgeZoneWidth := containerWidth * 0.2
    let leftEdgeZone := edgeZoneWidth
    let rightEdgeZone := containerWidth - edgeZoneWidth
    if relativeX < leftEdgeZone then
      ScrollDecision.scroll ScrollDir.left (max 2 ((1 - relativeX / leftEdgeZone) * 12))
    else if relativeX > rightEdgeZone then
      ScrollDecision.scroll ScrollDir.right (max 2 ((relativeX - rightEdgeZone) / edgeZoneWidth * 12))
    else ScrollDecision.stop

/-- renderer.ts startContinuousScroll: currentSpeed starts at speed * 0.3 and
each frame becomes min(currentSpeed + acceleration, maxSpeed), acceleration
0.1; this is currentSpeed after n frames. -/
def autoScrollSpeed (maxSpeed : ℚ) : ℕ → ℚ
  | 0 => maxSpeed * 0.3
  | n + 1 => min (autoScrollSpeed maxSpeed n + 0.1) maxSpeed

theorem autoScrollSpeed_closed (m : ℚ) (hm : 0 ≤ m) (n : ℕ) :
    autoScrollSpeed m n = min (m * 0.3 + n * 0.1) m := by
  induction n with
  | zero =>
    simp only [autoScrollSpeed, Nat.cast_zero, zero_mul, add_zero]
    rw [min_eq_left (by linarith)]
  | succ n ih =>
    rw [autoScrollSpeed, ih]
    have hc : ((n + 1 : ℕ) : ℚ) * 0.1 = (n : ℚ) * 0.1 + 0.1 := by push_cast; ring
    rw [hc]
    rcases le_total (m * 0.3 + (n : ℚ) * 0.1) m with h | h
    · rw [min_eq_left h, add_assoc]
    · rw [min_eq_right h, min_eq_right (by linarith), min_eq_right (by linarith)]

/-- C7: while dragging, a pointer in the left 20% of the scroll container
starts leftward continuous scroll and in the right 20% rightward scroll, with
maximum speed max(2, edgeProximity * 12); the central 60% stops continuous
scroll; and the per-frame tick speed starts at 30% of the maximum, grows by
exactly 0.1 per frame up to the maximum, and never exceeds the maximum. -/
theorem continuousScroll_spec (mouseX left W maxS : ℚ) (hW : 0 < W) (hm : 0 ≤ maxS) :
    (mouseX - left < 0.2 * W →
      updateContinuousScroll true mouseX left W =
        ScrollDecision.scroll ScrollDir.left (max 2 ((1 - (mouseX - left) / (0.2 * W)) * 12))) ∧
    (W - 0.2 * W < mouseX - left →
      updateContinuousScroll true mouseX left W =
        ScrollDecision.scroll ScrollDir.right (max 2 ((mouseX - left - (W - 0.2 * W)) / (0.2 * W) * 12))) ∧
    (0.2 * W ≤ mouseX - left → mouseX - left ≤ W - 0.2 * W →
      updateContinuousScroll true mouseX left W = ScrollDecision.stop) ∧
    (∀ d s, updateContinuousScroll true mouseX left W = ScrollDecision.scroll d s → 2 ≤ s) ∧
    autoScrollSpeed maxS 0 = 0.3 * maxS ∧
    (∀ n, autoScrollSpeed maxS (n + 1) = min (autoScrollSpeed maxS n + 0.1) maxS) ∧
    (∀ n, autoScrollSpeed maxS n = min (maxS * 0.3 + n * 0.1) maxS) ∧
    (∀ n, autoScrollSpeed maxS n ≤ maxS) ∧
    (∀ n, autoScrollSpeed maxS n ≤ autoScrollSpeed maxS (n + 1)) ∧
    (∃ N, autoScrollSpeed maxS N = maxS) := by
  have hmul : W * 0.2 = 0.2 * W := by ring
  refine ⟨fun h => ?_, fun h => ?_, fun h1 h2 => ?_, fun d s hds => ?_, by
      simp [autoScrollSpeed]; ring, fun n => rfl, autoScrollSpeed_closed maxS hm,
      fun n => ?_, fun n => ?_, ?_⟩
  · simp only [updateContinuousScroll, Bool.not_true, Bool.false_eq_true, if_false]
    rw [if_pos (by rw [hmul]; exact h), hmul]
  · simp only [updateContinuousScroll, Bool.not_true, Bool.false_eq_true, if_false]
    rw [if_neg (by rw [hmul]; push_neg; linarith), if_pos (by rw [hmul]; exact h), hmul]
  · simp only [updateContinuousScroll, Bool.not_true, Bool.false_eq_true, if_false]
    rw [if_neg (by rw [hmul]; push_neg; exact h1), if_neg (by rw [hmul]; push_neg; exact h2)]
  · simp only [updateContinuousScroll, Bool.not_true, Bool.false_eq_true, if_false] at hds
    split_ifs at hds <;> simp only [ScrollDecision.scroll.injEq] at hds <;>
      rw [← hds.2] <;> exact le_max_left 2 _
  · rw [autoScrollSpeed_closed maxS hm]
    exact min_le_right _ _
  · rw [autoScrollSpeed_closed maxS hm, autoScrollSpeed_closed maxS hm]
    have hc : ((n + 1 : ℕ) : ℚ) * 0.1 = (n : ℚ) * 0.1 + 0.1 := by push_cast; ring
    rw [hc]
    exact min_le_min (by linarith) (le_refl maxS)
  · refine ⟨(⌈(7 : ℚ) * maxS⌉).toNat, ?_⟩
    rw [autoScrollSpeed_closed maxS hm]
    have h7 : (7 : ℚ) * maxS ≤ ((⌈(7 : ℚ) * maxS⌉).toNat : ℚ) := by
      refine le_trans (Int.le_ceil _) ?_
      exact_mod_cast Int.self_le_toNat _
    exact min_eq_right (by linarith)

/-- C7 witness: the theorem applied while dragging at pointer x = 10 in a
100-wide container whose left edge is 0 (left edge zone, speed 6). -/
theorem continuousScroll_spec_witness :
    0 < (100 : ℚ) ∧ 0 ≤ (6 : ℚ) ∧ (10 : ℚ) - 0 < 0.2 * 100 ∧
      updateContinuousScroll true 10 0 100 =
        ScrollDecision.scroll ScrollDir.left (max 2 ((1 - ((10 : ℚ) - 0) / (0.2 * 100)) * 12)) :=
  ⟨by norm_num, by norm_num, by norm_num,
    (continuousScroll_spec 10 0 100 6 (by norm_num) (by norm_num)).1 (by norm_num)⟩

/-- A drawn canvas as exportImage sees it: its toDataURL result (always a
string) and its toBlob result (none models an encoding failure, the null
blob branch). -/
structure CanvasData where
  dataURL : String
  blobResult : Option String
deriving Repr, DecidableEq

/-- The export format argument of renderer.ts exportImage. -/
inductive ExportKind
  | dataURL
  | blob
deriving Repr, DecidableEq

/-- Promise.all over canvas.toBlob: all blobs in canvas order, or the
rejection if any canvas yields a null blob. -/
def collectBlobs : List CanvasData → Option (List String)
  | [] => some []
  | c :: rest =>
    match c.blobResult with
    | none => none
    | some b => (collectBlobs rest).map (fun l => b :: l)

/-- renderer.ts exportImage: throws 'No waveform data' when no canvases are
drawn; for data URLs maps toDataURL over the canvases; for blobs resolves all
toBlob promises or rejects with 'Could not export image'. -/
def exportImage (canvases : List CanvasData) (kind : ExportKind) : Except String (List String) :=
  if canvases.length = 0 then Except.error "No waveform data"
  else
    match kind with
    | ExportKind.dataURL => Except.ok (canvases.map (fun c => c.dataURL))
    | ExportKind.blob =>
      match collectBlobs canvases with
      | some blobs => Except.ok blobs
      | none => Except.error "Could not export image"

theorem collectBlobs_all_some (cs : List CanvasData)
    (h : ∀ c ∈ cs, c.blobResult ≠ none) :
    collectBlobs cs = some (cs.map (fun c => c.blobResult.getD "")) := by
  induction cs with
  | nil => rfl
  | cons c rest ih =>
    have hc := h c (List.mem_cons_self c rest)
    obtain ⟨b, hb⟩ := Option.ne_none_iff_exists'.mp hc
    rw [List.map_cons, collectBlobs, hb,
      ih (fun x hx => h x (List.mem_cons_of_mem c hx))]
    simp [hb]

theorem collectBlobs_has_none (cs : List CanvasData)
    (h : ∃ c ∈ cs, c.blobResult = none) :
    collectBlobs cs = none := by
  induction cs with
  | nil => simp at h
  | cons c rest ih =>
    rcases h with ⟨x, hx, hnone⟩
    rcases List.mem_cons.mp hx with he | hm
    · subst he
      simp [collectBlobs, hnone]
    · unfold collectBlobs
      rcases hcb : c.blobResult with _ | b
      · rfl
      · rw [ih ⟨x, hm, hnone⟩]
        rfl

/-- C8: exportImage rejects with 'No waveform data' exactly when no canvases
are drawn; otherwise it resolves with one image per drawn canvas in draw
order (dataURL mode maps toDataURL, blob mode collects every blob), and a
single failing blob encoding rejects that export call with
'Could not export image'. -/
theorem exportImage_spec (cs : List CanvasData) (kind : ExportKind) :
    (exportImage cs kind = Except.error "No waveform data" ↔ cs = []) ∧
    (cs ≠ [] → exportImage cs ExportKind.dataURL = Except.ok (cs.map (fun c => c.dataURL))) ∧
    (cs ≠ [] → (∀ c ∈ cs, c.blobResult ≠ none) →
      exportImage cs ExportKind.blob = Except.ok (cs.map (fun c => c.blobResult.getD ""))) ∧
    (cs ≠ [] → (∃ c ∈ cs, c.blobResult = none) →
      exportImage cs ExportKind.blob = Except.error "Could not export image") ∧
    (∀ images, exportImage cs kind = Except.ok images → images.length = cs.length) := by
  refine ⟨⟨fun he => ?_, fun he => ?_⟩, fun hne => ?_, fun hne hall => ?_, fun hne hsome => ?_,
    fun images hok => ?_⟩
  · by_contra hne
    have hlen : cs.length ≠ 0 := fun h => hne (List.length_eq_zero.mp h)
    unfold exportImage at he
    rw [if_neg hlen] at he
    rcases kind with _ | _
    · exact absurd he (by simp)
    · simp only at he
      rcases hcb : collectBlobs cs with _ | blobs <;> rw [hcb] at he <;> simp at he
  · subst he
    rfl
  · have hlen : cs.length ≠ 0 := fun h => hne (List.length_eq_zero.mp h)
    unfold exportImage
    rw [if_neg hlen]
  · have hlen : cs.length ≠ 0 := fun h => hne (List.length_eq_zero.mp h)
    unfold exportImage
    rw [if_neg hlen]
    simp only [collectBlobs_all_some cs hall]
  · have hlen : cs.length ≠ 0 := fun h => hne (List.length_eq_zero.mp h)
    unfold exportImage
    rw [if_neg hlen]
    simp only [collectBlobs_has_none cs hsome]
  · unfold exportImage at hok
    by_cases hlen : cs.length = 0
    · rw [if_pos hlen] at hok
      exact absurd hok (by simp)
    · rw [if_neg hlen] at hok
      rcases kind with _ | _
      · simp only [Except.ok.injEq] at hok
        rw [← hok, List.length_map]
      · simp only at hok
        rcases hcb : collectBlobs cs with _ | blobs <;> rw [hcb] at hok
        · exact absurd hok (by simp)
        · simp only [Except.ok.injEq] at hok
          subst hok
          have : ∀ c ∈ cs, c.blobResult ≠ none := by
            intro c hc hnone
            rw [collectBlobs_has_none cs ⟨c, hc, hnone⟩] at hcb
            exact Option.noConfusion hcb
          rw [collectBlobs_all_some cs this] at hcb
          have := Option.some.inj hcb
          rw [← this, List.length_map]

/-- C8 witness: the theorem applied to one drawn canvas with a successful blob
encoding and to the empty canvas list. -/
theorem exportImage_spec_witness :
    ([⟨"uA", some "bA"⟩] : List CanvasData) ≠ [] ∧
      exportImage [⟨"uA", some "bA"⟩] ExportKind.dataURL = Except.ok ["uA"] ∧
      (exportImage ([] : List CanvasData) ExportKind.blob =
        Except.error "No waveform data" ↔ ([] : List CanvasData) = []) :=
  ⟨by simp, by
    have h := (exportImage_spec [⟨"uA", some "bA"⟩] ExportKind.dataURL).2.1 (by simp)
    simpa using h,
    (exportImage_spec ([] : List CanvasData) ExportKind.blob).1⟩

/-- Renderer.MAX_CANVAS_WIDTH (renderer.ts line 19). -/
def MAX_CANVAS_WIDTH : ℚ := 8000

/-- Renderer.MAX_NODES (renderer.ts line 20), the drawn-tile eviction bound. -/
def MAX_NODES : ℕ := 10

/-- JS `a % b` for a nonnegative dividend and positive divisor. -/
def jsMod (a b : ℚ) : ℚ := a - b * ⌊a / b⌋

/-- The inputs of renderer.ts renderMultiCanvas: the device-pixel width
argument, the pixel ratio, the scroll container's clientWidth, and the
bar-style options (0 models a falsy barWidth/barGap option). -/
structure MCConfig where
  width : ℚ
  pixelRatio : ℚ
  clientWidth : ℚ
  barWidth : ℚ
  barGap : ℚ
deriving Repr, DecidableEq

/-- renderMultiCanvas: `const totalWidth = width / pixelRatio`. -/
def totalWidth (c : MCConfig) : ℚ := c.width / c.pixelRatio

/-- The bar-plus-gap period: `barWidth || 0.5` plus `barGap || barWidth / 2`. -/
def barPeriod (c : MCConfig) : ℚ :=
  let bw := jsOr c.barWidth 0.5
  bw + jsOr c.barGap (bw / 2)

/-- renderMultiCanvas: singleCanvasWidth = min(MAX_CANVAS_WIDTH, clientWidth,
totalWidth), snapped down to a multiple of the bar period when
`options.barWidth || options.barGap` and the width is not already a multiple. -/
def singleCanvasWidth (c : MCConfig) : ℚ :=
  let w := min MAX_CANVAS_WIDTH (min c.clientWidth (totalWidth c))
  if c.barWidth ≠ 0 ∨ c.barGap ≠ 0 then
    if jsMod w (barPeriod c) ≠ 0 then ⌊w / barPeriod c⌋ * barPeriod c else w
  else w

/-- renderMultiCanvas: `numCanvases = Math.ceil(totalWidth / singleCanvasWidth)`. -/
def numCanvases (c : MCConfig) : ℤ := ⌈totalWidth c / singleCanvasWidth c⌉

/-- The clampedWidth computed inside draw(index): min(totalWidth - offset,
singleCanvasWidth), floored onto the bar grid when bar options are active.
A tile is materialized (renderSingleCanvas runs) only when this is positive. -/
def clampedTileWidth (c : MCConfig) (index : ℤ) : ℚ :=
  let offset := (index : ℚ) * singleCanvasWidth c
  let cw := min (totalWidth c - offset) (singleCanvasWidth c)
  if c.barWidth ≠ 0 ∨ c.barGap ≠ 0 then ⌊cw / barPeriod c⌋ * barPeriod c else cw

/-- draw(index) effect on the drawnIndexes accounting: out-of-range indices are
skipped, every other index is marked drawn (the mark happens before the
clampedWidth check in the source, so zero-width tiles are marked too). -/
def draw (c : MCConfig) (s : Finset ℤ) (index : ℤ) : Finset ℤ :=
  if index < 0 ∨ numCanvases c ≤ index then s else insert index s

/-- The eager loop (`for i in 0..numCanvases: draw(i)`): indices of tiles
actually materialized, in draw order. -/
def eagerDrawnList (c : MCConfig) : List ℤ :=
  (List.map (fun n : ℕ => (n : ℤ)) (List.range (numCanvases c).toNat)).filter
    (fun i => decide (0 < clampedTileWidth c i))

/-- The lazy window draw: draw(i - 1); draw(i); draw(i + 1). -/
def drawWindow (c : MCConfig) (s : Finset ℤ) (i : ℤ) : Finset ℤ :=
  draw c (draw c (draw c s (i - 1)) i) (i + 1)

/-- renderMultiCanvas clearCanvases(): discard every drawn tile once the count
exceeds Renderer.MAX_NODES. -/
def clearCanvases (s : Finset ℤ) : Finset ℤ :=
  if MAX_NODES < s.card then ∅ else s

/-- The tile index for a scroll position: Math.floor(scrollLeft / totalWidth *
numCanvases). -/
def canvasIndexAt (c : MCConfig) (scrollLeft : ℚ) : ℤ :=
  ⌊scrollLeft / totalWidth c * (numCanvases c : ℚ)⌋

/-- One scroll-event callback of the lazy renderer: clearCanvases, then draw
the window around the current index. -/
def scrollTick (c : MCConfig) (s : Finset ℤ) (scrollLeft : ℚ) : Finset ℤ :=
  drawWindow c (clearCanvases s) (canvasIndexAt c scrollLeft)

/-- The initial lazy draw: the window around the start index, from no tiles. -/
def lazyInitState (c : MCConfig) (scrollLeft : ℚ) : Finset ℤ :=
  drawWindow c ∅ (canvasIndexAt c scrollLeft)

/-- Every drawnIndexes state during lazy rendering: the initial window and the
state after each scroll callback. -/
def lazyStates (c : MCConfig) (scrollLeft0 : ℚ) (ticks : List ℚ) : List (Finset ℤ) :=
  List.scanl (scrollTick c) (lazyInitState c scrollLeft0) ticks

theorem card_draw_le (c : MCConfig) (s : Finset ℤ) (i : ℤ) :
    (draw c s i).card ≤ s.card + 1 := by
  unfold draw
  split_ifs
  · exact Nat.le_succ _
  · exact Finset.card_insert_le _ _

theorem card_drawWindow_le (c : MCConfig) (s : Finset ℤ) (i : ℤ) :
    (drawWindow c s i).card ≤ s.card + 3 := by
  unfold drawWindow
  calc (draw c (draw c (draw c s (i - 1)) i) (i + 1)).card
      ≤ (draw c (draw c s (i - 1)) i).card + 1 := card_draw_le _ _ _
    _ ≤ ((draw c s (i - 1)).card + 1) + 1 := by
        have := card_draw_le c (draw c s (i - 1)) i
        omega
    _ ≤ s.card + 3 := by
        have := card_draw_le c s (i - 1)
        omega

theorem card_clearCanvases_le (s : Finset ℤ) : (clearCanvases s).card ≤ MAX_NODES := by
  unfold clearCanvases
  split_ifs with h
  · simp [MAX_NODES]
  · omega

theorem mem_draw (c : MCConfig) (s : Finset ℤ) (j x : ℤ) :
    x ∈ draw c s j ↔ (x = j ∧ 0 ≤ j ∧ j < numCanvases c) ∨ x ∈ s := by
  unfold draw
  split_ifs with h
  · constructor
    · exact Or.inr
    · rintro (⟨rfl, h0, hn⟩ | hx)
      · rcases h with h | h <;> omega
      · exact hx
  · push_neg at h
    rw [Finset.mem_insert]
    constructor
    · rintro (rfl | hx)
      · exact Or.inl ⟨rfl, by omega, h.2⟩
      · exact Or.inr hx
    · rintro (⟨rfl, _, _⟩ | hx)
      · exact Or.inl rfl
      · exact Or.inr hx

theorem mem_scanl {α β : Type} (f : α → β → α) (a : α) (l : List β) :
    ∀ s ∈ List.scanl f a l, s = a ∨ ∃ b y, s = f b y := by
  induction l generalizing a with
  | nil =>
    intro s hs
    rw [List.scanl] at hs
    exact Or.inl (List.mem_singleton.mp hs)
  | cons x xs ih =>
    intro s hs
    rw [List.scanl] at hs
    rcases List.mem_cons.mp hs with he | hm
    · exact Or.inl he
    · rcases ih (f a x) s hm with he | h
      · exact Or.inr ⟨a, x, he⟩
      · exact Or.inr h

/-- C4: during lazy rendering the drawn-tile count never exceeds
MAX_NODES + 3; a scroll callback that finds more than MAX_NODES drawn tiles
discards them all and redraws exactly the window around the current index —
the indices among i-1, i, i+1 that lie inside [0, numCanvases). -/
theorem lazy_tile_bound (c : MCConfig) (scrollLeft0 : ℚ) (ticks : List ℚ) :
    (∀ s ∈ lazyStates c scrollLeft0 ticks, s.card ≤ MAX_NODES + 3) ∧
    (∀ s x, MAX_NODES < s.card →
      scrollTick c s x = drawWindow c ∅ (canvasIndexAt c x)) ∧
    (∀ i x, x ∈ drawWindow c (∅ : Finset ℤ) i ↔
      (x = i - 1 ∨ x = i ∨ x = i + 1) ∧ 0 ≤ x ∧ x < numCanvases c) := by
  have htick : ∀ s x, (scrollTick c s x).card ≤ MAX_NODES + 3 := by
    intro s x
    unfold scrollTick
    calc (drawWindow c (clearCanvases s) (canvasIndexAt c x)).card
        ≤ (clearCanvases s).card + 3 := card_drawWindow_le _ _ _
      _ ≤ MAX_NODES + 3 := by have := card_clearCanvases_le s; omega
  refine ⟨fun s hs => ?_, fun s x h => ?_, fun i x => ?_⟩
  · rcases mem_scanl (scrollTick c) (lazyInitState c scrollLeft0) ticks s hs with he | ⟨b, y, he⟩
    · subst he
      unfold lazyInitState
      calc (drawWindow c (∅ : Finset ℤ) (canvasIndexAt c scrollLeft0)).card
          ≤ (∅ : Finset ℤ).card + 3 := card_drawWindow_le _ _ _
        _ ≤ MAX_NODES + 3 := by simp [MAX_NODES]
    · subst he
      exact htick b y
  · unfold scrollTick clearCanvases
    rw [if_pos h]
  · unfold drawWindow
    rw [mem_draw, mem_draw, mem_draw]
    simp only [Finset.not_mem_empty, or_false]
    constructor
    · rintro (⟨rfl, h0, hn⟩ | ⟨rfl, h0, hn⟩ | ⟨rfl, h0, hn⟩)
      · exact ⟨Or.inr (Or.inr rfl), h0, hn⟩
      · exact ⟨Or.inr (Or.inl rfl), h0, hn⟩
      · exact ⟨Or.inl rfl, h0, hn⟩
    · rintro ⟨rfl | rfl | rfl, h0, hn⟩
      · exact Or.inr (Or.inr ⟨rfl, h0, hn⟩)
      · exact Or.inr (Or.inl ⟨rfl, h0, hn⟩)
      · exact Or.inl ⟨rfl, h0, hn⟩

/-- C4 witness: the theorem applied to a no-bar config of 26 tiles, from the
initial state, and to a state of 11 drawn tiles (over the bound of 10). -/
theorem lazy_tile_bound_witness :
    (lazyInitState ⟨26000, 1, 1000, 0, 0⟩ 0).card ≤ MAX_NODES + 3 ∧
      MAX_NODES < ((List.map (fun n : ℕ => (n : ℤ)) (List.range 11)).toFinset).card ∧
      scrollTick ⟨26000, 1, 1000, 0, 0⟩ ((List.map (fun n : ℕ => (n : ℤ)) (List.range 11)).toFinset) 12500 =
        drawWindow ⟨26000, 1, 1000, 0, 0⟩ ∅ (canvasIndexAt ⟨26000, 1, 1000, 0, 0⟩ 12500) :=
  have h := lazy_tile_bound ⟨26000, 1, 1000, 0, 0⟩ 0 []
  ⟨h.1 (lazyInitState ⟨26000, 1, 1000, 0, 0⟩ 0) (by simp [lazyStates, List.scanl]),
    by decide,
    h.2.1 ((List.map (fun n : ℕ => (n : ℤ)) (List.range 11)).toFinset) 12500 (by decide)⟩

theorem mem_eagerDrawnList (c : MCConfig) (i : ℤ) :
    i ∈ eagerDrawnList c ↔ 0 ≤ i ∧ i < numCanvases c ∧ 0 < clampedTileWidth c i := by
  unfold eagerDrawnList
  rw [List.mem_filter]
  simp only [List.mem_map, List.mem_range, decide_eq_true_eq]
  constructor
  · rintro ⟨⟨n, hn, rfl⟩, hpos⟩
    exact ⟨Int.natCast_nonneg n, by omega, hpos⟩
  · rintro ⟨h0, hn, hpos⟩
    exact ⟨⟨i.toNat, by omega, Int.toNat_of_nonneg h0⟩, hpos⟩

theorem eagerDrawnList_pairwise (c : MCConfig) :
    (eagerDrawnList c).Pairwise (· < ·) := by
  have h1 : (List.map (fun n : ℕ => (n : ℤ)) (List.range (numCanvases c).toNat)).Pairwise
      (· < ·) := by
    rw [List.pairwise_map]
    refine List.Pairwise.imp ?_ (List.pairwise_lt_range _)
    intro a b hab
    exact_mod_cast hab
  exact List.Pairwise.sublist (List.filter_sublist _) h1

/-- C5 counterexample: with width 10, pixelRatio 1, clientWidth 10 (content
not scrollable), barWidth 2 and barGap 1, the tile width snaps from 10 down to
9, so numCanvases = 2, yet the eager loop materializes only tile 0: tile 1's
bar-snapped clamped width is 0 and renderSingleCanvas is skipped for it,
refuting "every tile is drawn". -/
theorem eager_draw_counterexample :
    (1 : ℤ) < numCanvases ⟨10, 1, 10, 2, 1⟩ ∧
      (0 : ℤ) ∈ eagerDrawnList ⟨10, 1, 10, 2, 1⟩ ∧
      (1 : ℤ) ∉ eagerDrawnList ⟨10, 1, 10, 2, 1⟩ := by
  have htw : totalWidth ⟨10, 1, 10, 2, 1⟩ = 10 := by norm_num [totalWidth]
  have hsw : singleCanvasWidth ⟨10, 1, 10, 2, 1⟩ = 9 := by
    norm_num [singleCanvasWidth, jsMod, barPeriod, jsOr, totalWidth, MAX_CANVAS_WIDTH, min_def]
  have hper : barPeriod ⟨10, 1, 10, 2, 1⟩ = 3 := by norm_num [barPeriod, jsOr]
  have hnum : numCanvases ⟨10, 1, 10, 2, 1⟩ = 2 := by
    unfold numCanvases
    rw [hsw, htw]
    norm_num [Int.ceil_eq_iff]
  have hc0 : clampedTileWidth ⟨10, 1, 10, 2, 1⟩ 0 = 9 := by
    norm_num [clampedTileWidth, hsw, htw, hper, min_def]
  have hc1 : clampedTileWidth ⟨10, 1, 10, 2, 1⟩ 1 = 0 := by
    norm_num [clampedTileWidth, hsw, htw, hper, min_def]
  refine ⟨by rw [hnum]; norm_num, ?_, ?_⟩
  · rw [mem_eagerDrawnList]
    exact ⟨le_refl 0, by rw [hnum]; norm_num, by rw [hc0]; norm_num⟩
  · rw [mem_eagerDrawnList]
    push_neg
    intro _ _
    rw [hc1]

/-- C5 (amended): the tile width is min(MAX_CANVAS_WIDTH, clientWidth,
totalWidth), snapped down to a multiple of the bar-plus-gap period when bar
options are active; numCanvases = ceil(totalWidth / tileWidth); and the
non-scrollable eager loop draws, in increasing index order, exactly the tiles
whose bar-snapped clamped width is positive — all of them when bar options are
inactive (a trailing tile can snap to width 0 and be skipped when bars are
active). -/
theorem renderMultiCanvas_tiling (c : MCConfig) :
    (c.barWidth = 0 → c.barGap = 0 →
      singleCanvasWidth c = min MAX_CANVAS_WIDTH (min c.clientWidth (totalWidth c))) ∧
    ((c.barWidth ≠ 0 ∨ c.barGap ≠ 0) →
      singleCanvasWidth c =
        ⌊min MAX_CANVAS_WIDTH (min c.clientWidth (totalWidth c)) / barPeriod c⌋ * barPeriod c) ∧
    numCanvases c = ⌈totalWidth c / singleCanvasWidth c⌉ ∧
    (∀ i : ℤ, i ∈ eagerDrawnList c ↔
      0 ≤ i ∧ i < numCanvases c ∧ 0 < clampedTileWidth c i) ∧
    (eagerDrawnList c).Pairwise (· < ·) ∧
    (c.barWidth = 0 → c.barGap = 0 → 0 < singleCanvasWidth c →
      eagerDrawnList c = List.map (fun n : ℕ => (n : ℤ)) (List.range (numCanvases c).toNat)) := by
  refine ⟨fun h1 h2 => ?_, fun h => ?_, rfl, mem_eagerDrawnList c, eagerDrawnList_pairwise c,
    fun h1 h2 hw => ?_⟩
  · simp [singleCanvasWidth, h1, h2]
  · unfold singleCanvasWidth
    rw [if_pos h]
    split_ifs with hm
    · rfl
    · push_neg at hm
      unfold jsMod at hm
      linarith
  · unfold eagerDrawnList
    rw [List.filter_eq_self]
    intro a ha
    rw [List.mem_map] at ha
    obtain ⟨n, hn, rfl⟩ := ha
    rw [List.mem_range] at hn
    simp only [decide_eq_true_eq]
    unfold clampedTileWidth
    rw [if_neg (by simp [h1, h2])]
    refine lt_min ?_ hw
    have hn2 : ((n : ℤ) : ℚ) < totalWidth c / singleCanvasWidth c := by
      refine Int.lt_ceil.mp ?_
      show (n : ℤ) < numCanvases c
      omega
    rw [lt_div_iff₀ hw] at hn2
    linarith

/-- C5 witness: a no-bar config (width 1000, ratio 1, clientWidth 500) whose
two tiles are both drawn eagerly, in order. -/
theorem renderMultiCanvas_tiling_witness :
    (0 : ℚ) < singleCanvasWidth ⟨1000, 1, 500, 0, 0⟩ ∧
      eagerDrawnList ⟨1000, 1, 500, 0, 0⟩ =
        List.map (fun n : ℕ => (n : ℤ)) (List.range (numCanvases ⟨1000, 1, 500, 0, 0⟩).toNat) ∧
      eagerDrawnList ⟨1000, 1, 500, 0, 0⟩ = [0, 1] := by
  have htw : totalWidth ⟨1000, 1, 500, 0, 0⟩ = 1000 := by norm_num [totalWidth]
  have hsw : singleCanvasWidth ⟨1000, 1, 500, 0, 0⟩ = 500 := by
    norm_num [singleCanvasWidth, totalWidth, MAX_CANVAS_WIDTH, min_def]
  have hnum : numCanvases ⟨1000, 1, 500, 0, 0⟩ = 2 := by
    unfold numCanvases
    rw [hsw, htw]
    norm_num [Int.ceil_eq_iff]
  have hpos : (0 : ℚ) < singleCanvasWidth ⟨1000, 1, 500, 0, 0⟩ := by
    rw [hsw]
    norm_num
  have happ := (renderMultiCanvas_tiling ⟨1000, 1, 500, 0, 0⟩).2.2.2.2.2 rfl rfl hpos
  refine ⟨hpos, happ, ?_⟩
  rw [happ, hnum]
  decide

/-- makeDraggable constant DRAG_DAMPING (part_004 first draft). -/
def DRAG_DAMPING : ℚ := 0.99

/-- makeDraggable constant MIN_DRAG_INTERVAL, the minimum ms between samples. -/
def MIN_DRAG_INTERVAL : ℚ := 2

/-- makeDraggable constant MIN_MOVEMENT_THRESHOLD for flushing accumulatedDx. -/
def MIN_MOVEMENT_THRESHOLD : ℚ := 0.001

/-- makeDraggable constant VELOCITY_SAMPLES, the velocity history cap. -/
def VELOCITY_SAMPLES : ℕ := 8

/-- makeDraggable constant VELOCITY_DECAY applied below the drag threshold. -/
def VELOCITY_DECAY : ℚ := 0.92

/-- A callback invocation makeDraggable hands to its consumer: onStart,
onDrag (with velocity and absolute mouse X), or onEnd. -/
inductive DragCallback
  | start (x y : ℚ)
  | drag (dx dy x y velocity mouseX : ℚ)
  | finish (x y : ℚ)
deriving Repr, DecidableEq

/-- A pointermove event: pointer position, Date.now() time, and the element's
live bounding rect at that time. -/
structure MoveEvent where
  clientX : ℚ
  clientY : ℚ
  time : ℚ
  rectLeft : ℚ
  rectTop : ℚ
  rectWidth : ℚ
deriving Repr, DecidableEq

/-- A pointerup, pointercancel, or qualifying pointerout event. -/
structure UpEvent where
  clientX : ℚ
  clientY : ℚ
  rectLeft : ℚ
  rectTop : ℚ
deriving Repr, DecidableEq

/-- The document-level pointer events one gesture can receive after
pointerdown. -/
inductive PointerEvt
  | move (e : MoveEvent)
  | up (e : UpEvent)
deriving Repr, DecidableEq

/-- The per-gesture constants captured at pointerdown. -/
structure GestureParams where
  isTouchDevice : Bool
  threshold : ℚ
  touchDelay : ℚ
  initialMouseX : ℚ
  initialMouseY : ℚ
  initialRectLeft : ℚ
  initialRectTop : ℚ
  downTime : ℚ
deriving Repr, DecidableEq

/-- initialRelativeX = initialMouseX - initialRect.left. -/
def initialRelativeX (g : GestureParams) : ℚ := g.initialMouseX - g.initialRectLeft

/-- initialRelativeY = initialMouseY - initialRect.top. -/
def initialRelativeY (g : GestureParams) : ℚ := g.initialMouseY - g.initialRectTop

/-- The mutable closure state of one pointerdown gesture in makeDraggable. -/
structure DragState where
  isDragging : Bool
  lastDragTime : ℚ
  lastMouseX : ℚ
  lastMouseY : ℚ
  accumulatedDx : ℚ
  velocityHistory : List (ℚ × ℚ)
  sumDx : ℚ
  sumDt : ℚ
  currentVelocity : ℚ
deriving Repr, DecidableEq

/-- The closure state right after pointerdown. -/
def initialDragState (g : GestureParams) : DragState :=
  { isDragging := false
    lastDragTime := g.downTime
    lastMouseX := g.initialMouseX
    lastMouseY := g.initialMouseY
    accumulatedDx := 0
    velocityHistory := []
    sumDx := 0
    sumDt := 0
    currentVelocity := 0 }

/-- calculateVelocity(dx, dt): push the sample, cap the history at
VELOCITY_SAMPLES maintaining the running sums, set currentVelocity to
|sumDx / sumDt| (0 unless sumDt > 0), and return it. -/
def calculateVelocity (s : DragState) (dx dt : ℚ) : DragState × ℚ :=
  let hist := s.velocityHistory ++ [(dx, dt)]
  let sumDx := s.sumDx + dx
  let sumDt := s.sumDt + dt
  let pruned :=
    if VELOCITY_SAMPLES < hist.length then
      match hist with
      | [] => (hist, sumDx, sumDt)
      | removed :: rest => (rest, sumDx - removed.1, sumDt - removed.2)
    else (hist, sumDx, sumDt)
  let v := if 0 < pruned.2.2 then |pruned.2.1 / pruned.2.2| else 0
  ({ s with
      velocityHistory := pruned.1
      sumDx := pruned.2.1
      sumDt := pruned.2.2
      currentVelocity := v }, v)

/-- part_004 onPointerMove: the touch-delay and sample-interval gates, the
velocity update, the threshold check, the start transition, edge damping, the
accumulated-dx flush; returns the new closure state and the callbacks fired,
in order. -/
def onPointerMove (g : GestureParams) (s : DragState) (e : MoveEvent) :
    DragState × List DragCallback :=
  if g.isTouchDevice ∧ e.time - g.downTime < g.touchDelay then (s, [])
  else if e.time - s.lastDragTime < MIN_DRAG_INTERVAL then (s, [])
  else
    let rawDx := e.clientX - s.lastMouseX
    let rawDy := e.clientY - s.lastMouseY
    let sv := calculateVelocity s rawDx (e.time - s.lastDragTime)
    let totalDx := e.clientX - g.initialMouseX
    let totalDy := e.clientY - g.initialMouseY
    if sv.1.isDragging = true ∨ g.threshold < |totalDx| ∨ g.threshold < |totalDy| then
      let currentRelativeX := e.clientX - e.rectLeft
      let currentRelativeY := e.clientY - e.rectTop
      let startCbs : List DragCallback :=
        if sv.1.isDragging = true then []
        else [DragCallback.start (initialRelativeX g) (initialRelativeY g)]
      let minDistanceFromEdge := min currentRelativeX (e.rectWidth - currentRelativeX)
      let edgeDamping := if minDistanceFromEdge < 15 then max 0.95 (minDistanceFromEdge / 15) else 1
      let dampedDx := rawDx * DRAG_DAMPING * edgeDamping
      let dampedDy := rawDy * DRAG_DAMPING * edgeDamping
      let acc := sv.1.accumulatedDx + dampedDx
      let fire : Bool := decide (MIN_MOVEMENT_THRESHOLD < |acc|)
      let dragCbs : List DragCallback :=
        if fire then
          [DragCallback.drag acc dampedDy currentRelativeX currentRelativeY sv.2 e.clientX]
        else []
      ({ sv.1 with isDragging := true
                   accumulatedDx := if fire then 0 else acc
                   lastDragTime := e.time
                   lastMouseX := e.clientX
                   lastMouseY := e.clientY },
       startCbs ++ dragCbs)
    else
      ({ sv.1 with currentVelocity := sv.1.currentVelocity * VELOCITY_DECAY }, [])

/-- part_004 onPointerUp: fires onEnd with the final relative position only
when the gesture entered the dragging state. -/
def onPointerUp (s : DragState) (e : UpEvent) : List DragCallback :=
  if s.isDragging = true then
    [DragCallback.finish (e.clientX - e.rectLeft) (e.clientY - e.rectTop)]
  else []

/-- Process a gesture's document events after pointerdown: the first up-type
event runs onPointerUp and then unsubscribeDocument removes the listeners, so
processing stops there. -/
def processEvents (g : GestureParams) : DragState → List PointerEvt → List DragCallback
  | _, [] => []
  | s, PointerEvt.move e :: rest =>
    (onPointerMove g s e).2 ++ processEvents g (onPointerMove g s e).1 rest
  | s, PointerEvt.up e :: _ => onPointerUp s e

/-- All callbacks one gesture fires, from pointerdown on. -/
def gestureTrace (g : GestureParams) (evts : List PointerEvt) : List DragCallback :=
  processEvents g (initialDragState g) evts

/-- Callback classifier: onStart. -/
def isStartCb : DragCallback → Bool
  | DragCallback.start _ _ => true
  | _ => false

/-- Callback classifier: onDrag. -/
def isDragCb : DragCallback → Bool
  | DragCallback.drag _ _ _ _ _ _ => true
  | _ => false

/-- Callback classifier: onEnd. -/
def isFinishCb : DragCallback → Bool
  | DragCallback.finish _ _ => true
  | _ => false

theorem calculateVelocity_isDragging (s : DragState) (dx dt : ℚ) :
    (calculateVelocity s dx dt).1.isDragging = s.isDragging := rfl

theorem onPointerMove_dragging (g : GestureParams) (s : DragState) (e : MoveEvent)
    (h : s.isDragging = true) :
    (onPointerMove g s e).1.isDragging = true ∧
    ∀ c ∈ (onPointerMove g s e).2, isDragCb c = true := by
  by_cases h1 : g.isTouchDevice ∧ e.time - g.downTime < g.touchDelay
  · constructor
    · simp [onPointerMove, h1, h]
    · simp [onPointerMove, h1]
  · by_cases h2 : e.time - s.lastDragTime < MIN_DRAG_INTERVAL
    · constructor
      · simp [onPointerMove, h1, h2, h]
      · simp [onPointerMove, h1, h2]
    · have h3 : (calculateVelocity s (e.clientX - s.lastMouseX)
          (e.time - s.lastDragTime)).1.isDragging = true := by
        rw [calculateVelocity_isDragging]
        exact h
      have hcond : (calculateVelocity s (e.clientX - s.lastMouseX)
          (e.time - s.lastDragTime)).1.isDragging = true ∨
          g.threshold < |e.clientX - g.initialMouseX| ∨
          g.threshold < |e.clientY - g.initialMouseY| := Or.inl h3
      constructor
      · simp only [onPointerMove, if_neg h1, if_neg h2, if_pos hcond]
      · intro c hc
        simp only [onPointerMove, if_neg h1, if_neg h2, if_pos hcond, if_pos h3,
          List.nil_append] at hc
        split_ifs at hc <;>
          first
            | exact absurd hc (List.not_mem_nil c)
            | (simp only [List.mem_singleton] at hc; subst hc; rfl)

theorem onPointerMove_notDragging (g : GestureParams) (s : DragState) (e : MoveEvent)
    (h : s.isDragging = false) :
    ((onPointerMove g s e).1.isDragging = false ∧ (onPointerMove g s e).2 = []) ∨
    (∃ dcbs, (onPointerMove g s e).2 =
        DragCallback.start (initialRelativeX g) (initialRelativeY g) :: dcbs ∧
      (∀ c ∈ dcbs, isDragCb c = true) ∧ (onPointerMove g s e).1.isDragging = true) := by
  by_cases h1 : g.isTouchDevice ∧ e.time - g.downTime < g.touchDelay
  · left
    constructor
    · simp [onPointerMove, h1, h]
    · simp [onPointerMove, h1]
  · by_cases h2 : e.time - s.lastDragTime < MIN_DRAG_INTERVAL
    · left
      constructor
      · simp [onPointerMove, h1, h2, h]
      · simp [onPointerMove, h1, h2]
    · have hsv : (calculateVelocity s (e.clientX - s.lastMouseX)
          (e.time - s.lastDragTime)).1.isDragging = false := by
        rw [calculateVelocity_isDragging]
        exact h
      have hsvne : ¬ ((calculateVelocity s (e.clientX - s.lastMouseX)
          (e.time - s.lastDragTime)).1.isDragging = true) := by
        rw [hsv]
        simp
      by_cases h3 : g.threshold < |e.clientX - g.initialMouseX| ∨
          g.threshold < |e.clientY - g.initialMouseY|
      · right
        have hcond : (calculateVelocity s (e.clientX - s.lastMouseX)
            (e.time - s.lastDragTime)).1.isDragging = true ∨
            g.threshold < |e.clientX - g.initialMouseX| ∨
            g.threshold < |e.clientY - g.initialMouseY| := Or.inr h3
        have hsnd : ∃ dcbs, (onPointerMove g s e).2 =
            DragCallback.start (initialRelativeX g) (initialRelativeY g) :: dcbs ∧
            ∀ c ∈ dcbs, isDragCb c = true := by
          simp only [onPointerMove, if_neg h1, if_neg h2, if_pos hcond, if_neg hsvne,
            List.cons_append, List.nil_append]
          refine ⟨_, rfl, ?_⟩
          intro c hc
          split_ifs at hc <;>
            first
              | exact absurd hc (List.not_mem_nil c)
              | (simp only [List.mem_singleton] at hc; subst hc; rfl)
        obtain ⟨dcbs, hd1, hd2⟩ := hsnd
        exact ⟨dcbs, hd1, hd2,
          by simp only [onPointerMove, if_neg h1, if_neg h2, if_pos hcond]⟩
      · left
        have hcond : ¬ ((calculateVelocity s (e.clientX - s.lastMouseX)
            (e.time - s.lastDragTime)).1.isDragging = true ∨
            g.threshold < |e.clientX - g.initialMouseX| ∨
            g.threshold < |e.clientY - g.initialMouseY|) := by
          rintro (hx | hx)
          · exact hsvne hx
          · exact h3 hx
        constructor
        · simp only [onPointerMove, if_neg h1, if_neg h2, if_neg hcond]
          simp [calculateVelocity_isDragging, h]
        · simp only [onPointerMove, if_neg h1, if_neg h2, if_neg hcond]

theorem processEvents_dragging (g : GestureParams) (evts : List PointerEvt) :
    ∀ s : DragState, s.isDragging = true →
      ∃ drags ending, processEvents g s evts = drags ++ ending ∧
        (∀ c ∈ drags, isDragCb c = true) ∧
        (ending = [] ∨ ∃ x y, ending = [DragCallback.finish x y]) := by
  induction evts with
  | nil =>
    intro s _
    exact ⟨[], [], rfl, by simp, Or.inl rfl⟩
  | cons ev rest ih =>
    intro s h
    cases ev with
    | up e =>
      refine ⟨[], [DragCallback.finish (e.clientX - e.rectLeft) (e.clientY - e.rectTop)],
        ?_, by simp, Or.inr ⟨_, _, rfl⟩⟩
      simp [processEvents, onPointerUp, h]
    | move e =>
      obtain ⟨hd, hcbs⟩ := onPointerMove_dragging g s e h
      obtain ⟨drags, ending, heq, hdr, hend⟩ := ih (onPointerMove g s e).1 hd
      refine ⟨(onPointerMove g s e).2 ++ drags, ending, ?_, ?_, hend⟩
      · simp [processEvents, heq]
      · intro c hc
        rcases List.mem_append.mp hc with hm | hm
        · exact hcbs c hm
        · exact hdr c hm

theorem processEvents_initial (g : GestureParams) (evts : List PointerEvt) :
    ∀ s : DragState, s.isDragging = false →
      processEvents g s evts = [] ∨
      ∃ drags ending,
        processEvents g s evts =
          DragCallback.start (initialRelativeX g) (initialRelativeY g) :: (drags ++ ending) ∧
        (∀ c ∈ drags, isDragCb c = true) ∧
        (ending = [] ∨ ∃ x y, ending = [DragCallback.finish x y]) := by
  induction evts with
  | nil =>
    intro s _
    exact Or.inl rfl
  | cons ev rest ih =>
    intro s h
    cases ev with
    | up e =>
      left
      simp [processEvents, onPointerUp, h]
    | move e =>
      rcases onPointerMove_notDragging g s e h with ⟨hd, hnil⟩ | ⟨dcbs, hcbs, hdr, hd⟩
      · rcases ih (onPointerMove g s e).1 hd with hnil2 | ⟨drags, ending, heq, hdr, hend⟩
        · left
          simp [processEvents, hnil, hnil2]
        · right
          exact ⟨drags, ending, by simp [processEvents, hnil, heq], hdr, hend⟩
      · right
        obtain ⟨drags, ending, heq, hdr2, hend⟩ :=
          processEvents_dragging g rest (onPointerMove g s e).1 hd
        refine ⟨dcbs ++ drags, ending, ?_, ?_, hend⟩
        · simp [processEvents, hcbs, heq]
        · intro c hc
          rcases List.mem_append.mp hc with hm | hm
          · exact hdr c hm
          · exact hdr2 c hm

theorem isStartCb_false_of_drag {c : DragCallback} (h : isDragCb c = true) :
    isStartCb c = false := by
  cases c <;> simp_all [isDragCb, isStartCb]

theorem isStartCb_false_of_finish {c : DragCallback} (h : isFinishCb c = true) :
    isStartCb c = false := by
  cases c <;> simp_all [isFinishCb, isStartCb]

theorem isFinishCb_false_of_drag {c : DragCallback} (h : isDragCb c = true) :
    isFinishCb c = false := by
  cases c <;> simp_all [isDragCb, isFinishCb]

theorem append_singleton_split {α : Type} (p : α → Bool) :
    ∀ (l : List α) (f : α) (pre : List α) (c : α) (post : List α),
      (∀ x ∈ l, p x = false) → p c = true → l ++ [f] = pre ++ c :: post →
      post = [] ∧ pre = l ∧ c = f := by
  intro l
  induction l with
  | nil =>
    intro f pre c post _ _ heq
    cases pre with
    | nil =>
      simp only [List.nil_append] at heq
      obtain ⟨rfl, hpost⟩ := List.cons.inj heq
      exact ⟨hpost.symm, rfl, rfl⟩
    | cons a pre2 =>
      simp only [List.nil_append, List.cons_append] at heq
      obtain ⟨rfl, htl⟩ := List.cons.inj heq
      exact absurd htl.symm (by simp)
  | cons x xs ih =>
    intro f pre c post hl hc heq
    cases pre with
    | nil =>
      simp only [List.cons_append, List.nil_append] at heq
      obtain ⟨rfl, _⟩ := List.cons.inj heq
      have hx := hl x (by simp)
      rw [hx] at hc
      exact absurd hc (by simp)
    | cons a pre2 =>
      simp only [List.cons_append] at heq
      obtain ⟨rfl, htl⟩ := List.cons.inj heq
      obtain ⟨hpost, hpre, hcf⟩ := ih f pre2 c post (fun y hy => hl y (by simp [hy])) hc htl
      exact ⟨hpost, by rw [hpre], hcf⟩

/-- C2: in every gesture makeDraggable processes, onStart fires at most once
and exactly once as the very first callback whenever any callback fires (so
it precedes every onDrag, and exactly one onStart precedes any onDrag);
onEnd fires at most once, only after the gesture entered dragging (an onStart
precedes it), and is the final callback, so no onDrag follows it. -/
theorem makeDraggable_gesture_order (g : GestureParams) (evts : List PointerEvt) :
    ((gestureTrace g evts).countP isStartCb ≤ 1) ∧
    (gestureTrace g evts ≠ [] → (gestureTrace g evts).countP isStartCb = 1) ∧
    (∀ pre c post, gestureTrace g evts = pre ++ c :: post → isDragCb c = true →
      pre.countP isStartCb = 1) ∧
    ((gestureTrace g evts).countP isFinishCb ≤ 1) ∧
    (∀ pre c post, gestureTrace g evts = pre ++ c :: post → isFinishCb c = true →
      pre.countP isStartCb = 1 ∧ post = []) := by
  rcases processEvents_initial g evts (initialDragState g) rfl with hT |
    ⟨drags, ending, hT, hdr, hend⟩
  · refine ⟨by simp [gestureTrace, hT], fun hne => absurd hT hne,
      fun pre c post hpc _ => ?_, by simp [gestureTrace, hT], fun pre c post hpc _ => ?_⟩
    · rw [gestureTrace] at hpc
      rw [hT] at hpc
      exact absurd hpc.symm (by simp)
    · rw [gestureTrace] at hpc
      rw [hT] at hpc
      exact absurd hpc.symm (by simp)
  · have hrest : ∀ c ∈ drags ++ ending, isStartCb c = false := by
      intro c hc
      rcases List.mem_append.mp hc with hm | hm
      · exact isStartCb_false_of_drag (hdr c hm)
      · rcases hend with rfl | ⟨x, y, rfl⟩
        · exact absurd hm (List.not_mem_nil c)
        · simp only [List.mem_singleton] at hm
          subst hm
          rfl
    have hcount0 : (drags ++ ending).countP isStartCb = 0 :=
      List.countP_eq_zero.mpr (by simpa using hrest)
    have hcountT : (gestureTrace g evts).countP isStartCb = 1 := by
      rw [gestureTrace, hT, List.countP_cons]
      simp [isStartCb, hcount0]
    refine ⟨le_of_eq hcountT, fun _ => hcountT, ?_, ?_, ?_⟩
    · intro pre c post hpc hcd
      rw [gestureTrace, hT] at hpc
      cases pre with
      | nil =>
        simp only [List.nil_append] at hpc
        obtain ⟨hc1, _⟩ := List.cons.inj hpc
        rw [← hc1] at hcd
        exact absurd hcd (by simp [isDragCb])
      | cons a pre2 =>
        simp only [List.cons_append] at hpc
        obtain ⟨ha, htl⟩ := List.cons.inj hpc
        have hpre2 : pre2.countP isStartCb = 0 := by
          refine List.countP_eq_zero.mpr ?_
          intro x hx
          have hxmem : x ∈ drags ++ ending := by
            have hp : pre2 <+: drags ++ ending := ⟨c :: post, htl.symm⟩
            exact hp.subset hx
          simp [hrest x hxmem]
        rw [List.countP_cons, ← ha]
        simp [isStartCb, hpre2]
    · rw [gestureTrace, hT, List.countP_cons]
      have hdragsF : drags.countP isFinishCb = 0 := by
        refine List.countP_eq_zero.mpr ?_
        intro x hx
        simp [isFinishCb_false_of_drag (hdr x hx)]
      rcases hend with rfl | ⟨x, y, rfl⟩
      · simp [isFinishCb, List.countP_append, hdragsF]
      · simp [isFinishCb, List.countP_append, hdragsF, List.countP_cons]
    · intro pre c post hpc hcf
      rw [gestureTrace, hT] at hpc
      cases pre with
      | nil =>
        simp only [List.nil_append] at hpc
        obtain ⟨hc1, _⟩ := List.cons.inj hpc
        rw [← hc1] at hcf
        exact absurd hcf (by simp [isFinishCb])
      | cons a pre2 =>
        simp only [List.cons_append] at hpc
        obtain ⟨ha, htl⟩ := List.cons.inj hpc
        rcases hend with rfl | ⟨x, y, rfl⟩
        · exfalso
          rw [List.append_nil] at htl
          have hcd : c ∈ drags := htl ▸ (by simp : c ∈ pre2 ++ c :: post)
          have := isFinishCb_false_of_drag (hdr c hcd)
          rw [this] at hcf
          exact absurd hcf (by simp)
        · obtain ⟨hpost, hpre2, _⟩ := append_singleton_split isFinishCb drags
            (DragCallback.finish x y) pre2 c post
            (fun z hz => isFinishCb_false_of_drag (hdr z hz)) hcf htl
          refine ⟨?_, hpost⟩
          rw [List.countP_cons, ← ha]
          have : pre2.countP isStartCb = 0 := by
            rw [hpre2]
            exact List.countP_eq_zero.mpr
              (fun z hz => by simp [isStartCb_false_of_drag (hdr z hz)])
          simp [isStartCb, this]

/-- C2 witness: a concrete gesture — pointerdown at (0,0), one pointermove to
x = 10 (beyond the 3px threshold) at t = 100, then pointerup — fires a
callback trace, and the theorem applied to it gives exactly one onStart. -/
theorem makeDraggable_gesture_order_witness :
    gestureTrace ⟨false, 3, 100, 0, 0, 0, 0, 0⟩
        [PointerEvt.move ⟨10, 0, 100, 0, 0, 100⟩, PointerEvt.up ⟨10, 0, 0, 0⟩] ≠ [] ∧
      (gestureTrace ⟨false, 3, 100, 0, 0, 0, 0, 0⟩
          [PointerEvt.move ⟨10, 0, 100, 0, 0, 100⟩,
            PointerEvt.up ⟨10, 0, 0, 0⟩]).countP isStartCb = 1 := by
  have htr : gestureTrace ⟨false, 3, 100, 0, 0, 0, 0, 0⟩
      [PointerEvt.move ⟨10, 0, 100, 0, 0, 100⟩, PointerEvt.up ⟨10, 0, 0, 0⟩] =
      [DragCallback.start 0 0,
       DragCallback.drag (1881 / 200) 0 10 0 (1 / 10) 10,
       DragCallback.finish 10 0] := by
    norm_num [gestureTrace, processEvents, onPointerMove, onPointerUp, calculateVelocity,
      initialDragState, initialRelativeX, initialRelativeY, DRAG_DAMPING, MIN_DRAG_INTERVAL,
      MIN_MOVEMENT_THRESHOLD, VELOCITY_SAMPLES, VELOCITY_DECAY, min_def, max_def,
      abs_of_nonneg, abs_of_pos]
  have hne : gestureTrace ⟨false, 3, 100, 0, 0, 0, 0, 0⟩
      [PointerEvt.move ⟨10, 0, 100, 0, 0, 100⟩, PointerEvt.up ⟨10, 0, 0, 0⟩] ≠ [] := by
    rw [htr]
    simp
  exact ⟨hne, (makeDraggable_gesture_order ⟨false, 3, 100, 0, 0, 0, 0, 0⟩
    [PointerEvt.move ⟨10, 0, 100, 0, 0, 100⟩, PointerEvt.up ⟨10, 0, 0, 0⟩]).2.1 hne⟩

end Wavesurfer
